import Mathlib

/-!
Shallow embedding of the `torrentfs` download/storage lifecycle manager
(package `torrentfs`, file containing `TorrentManager`, `Torrent`,
`verifyTorrent`, `AddTorrent`, `AddMagnet`, `UpdateMagnet`, `DropMagnet`
and the scheduler loop `listenTorrentProgress`).

Modelling conventions:
- Go `int64` values are modelled as `Int`; the only arithmetic on them in
  the source is comparison and `int64(float64(x) * 1.25)`, which for the
  magnitudes below 2^51 computes exactly `(5*x)` truncated-divided by 4
  (Go's float-to-int conversion truncates toward zero), modelled by
  `Int.tdiv`.
- `metainfo.Hash` is identified with its hex string (the code only ever
  uses `ih.HexString()` to build paths and as an opaque map key).
- The Go map `map[metainfo.Hash]*Torrent` is modelled as a function
  `Hash → Option Torrent`.
- Calls into the external swarm client (`VerifyData`, `DownloadAll`,
  `Drop`) and into the OS (`os.Symlink`, writing the torrent file,
  spawning a goroutine) are recorded as an explicit list of effects.
- Fallible external inputs (magnet-URI parsing, `os.Stat`,
  `metainfo.LoadFromFile`, on-disk file contents, the `AddTorrentSpec`
  error) are passed in as explicit parameters; a function whose Go body
  would dereference a nil pointer returns `none` (a runtime fault).
-/

/-! ## Constants (from the `const` block of the source) -/

def defaultBytesLimitation : Int := 512 * 1024

def defaultTmpFilePath : String := ".tmp"

def torrentPending : Int := 0

def torrentPaused : Int := 1

def torrentRunning : Int := 2

def torrentSeeding : Int := 3

/-- Models the Go expression `int64(float64(r) * expansionFactor)` with
`expansionFactor = 1.25`: multiplication by 5/4 with truncation toward
zero (exact for the int64 magnitudes arising here). -/
def applyExpansionFactor (r : Int) : Int := (5 * r).tdiv 4

/-- A content id (`metainfo.Hash`), identified with its hex string. -/
abbrev Hash := String

/-- Models `path.Join` on two nonempty components. -/
def pathJoin (a b : String) : String := a ++ "/" ++ b

/-- External side effects issued by the manager and torrent operations. -/
inductive Effect where
  | verifyData
  | downloadAll
  | drop
  | symlink (oldname newname : String)
  | writeTorrentFile (path : String)
  | spawnGetTorrent
deriving DecidableEq, Repr

/-! ## The `Torrent` state entity -/

structure Torrent where
  bytesRequested : Int
  bytesLimitation : Int
  bytesCompleted : Int
  bytesMissing : Int
  status : Int
  torrentPath : String
deriving DecidableEq, Repr

/-- The `Torrent` literal built at every insertion site (`AddTorrent` and
`AddMagnet`): `{t, defaultBytesLimitation,
int64(defaultBytesLimitation * expansionFactor), 0, 0, torrentPending,
torrentPath}`. -/
def initTorrent (torrentPath : String) : Torrent :=
  { bytesRequested := defaultBytesLimitation
    bytesLimitation := applyExpansionFactor defaultBytesLimitation
    bytesCompleted := 0
    bytesMissing := 0
    status := torrentPending
    torrentPath := torrentPath }

/-- `(t *Torrent) GetTorrent()`: after the `GotInfo` signal, a
non-pending torrent returns unchanged; a pending one writes the
metainfo to `t.torrentPath` and becomes paused. -/
def Torrent.GetTorrent (t : Torrent) : Torrent × List Effect :=
  if t.status = torrentPending then
    ({ t with status := torrentPaused }, [.writeTorrentFile t.torrentPath])
  else (t, [])

/-- `(t *Torrent) Seed()`: issues `VerifyData` and `DownloadAll`, then
sets the status to seeding. -/
def Torrent.Seed (t : Torrent) : Torrent × List Effect :=
  ({ t with status := torrentSeeding }, [.verifyData, .downloadAll])

/-- `(t *Torrent) Pause()`: a no-op when already paused; otherwise sets
the status to paused and issues `Drop`. -/
def Torrent.Pause (t : Torrent) : Torrent × List Effect :=
  if t.status = torrentPaused then (t, [])
  else ({ t with status := torrentPaused }, [.drop])

/-- `(t *Torrent) Run()`: a no-op when already running; otherwise issues
`DownloadAll` and sets the status to running. -/
def Torrent.Run (t : Torrent) : Torrent × List Effect :=
  if t.status = torrentRunning then (t, [])
  else ({ t with status := torrentRunning }, [.downloadAll])

/-- The body of `UpdateMagnet` acting on one torrent: store the request,
then expand the limitation when the request exceeds it. -/
def Torrent.updateBudget (t : Torrent) (r : Int) : Torrent :=
  let t1 := { t with bytesRequested := r }
  if t1.bytesLimitation < t1.bytesRequested then
    { t1 with bytesLimitation := applyExpansionFactor r }
  else t1

/-! ## Piece verification (`mmapFile` / `verifyTorrent`)

The descriptor (`metainfo.Info`) is modelled by `Info`: the file list
with declared lengths, and the piece ranges with their expected hashes.
The disk is a partial map from file name to byte contents
(`none` = `os.Open`/`mmap` failure; a zero-length mapping in Go is the
empty byte list here).  The SHA-1 digest function is an opaque
parameter `hashFn`. -/

structure FileInfo where
  path : List String
  length : Int
deriving DecidableEq, Repr

/-- One piece of the descriptor: its byte range inside the concatenated
file span (`p.Offset()`, `p.Length()`) and its expected digest
(`p.Hash().Bytes()`). -/
structure PieceSpec where
  off : Nat
  len : Nat
  expected : List Nat
deriving DecidableEq, Repr

structure Info where
  name : String
  files : List FileInfo
  pieces : List PieceSpec
deriving DecidableEq, Repr

/-- `filepath.Join(append([]string{root, info.Name}, file.Path...)...)`. -/
def fname (root name : String) (p : List String) : String :=
  String.intercalate "/" (root :: name :: p)

/-- The first loop of `verifyTorrent`: mmap every file in order, check
its length against the declared length, and build the concatenated
span.  Fails at the first unreadable or wrong-length file. -/
def buildSpan (disk : String → Option (List Nat)) (root name : String) :
    List FileInfo → Except String (List Nat)
  | [] => .ok []
  | f :: fs =>
    match disk (fname root name f.path) with
    | none => .error "open error"
    | some mm =>
      if (mm.length : Int) = f.length then
        match buildSpan disk root name fs with
        | .error e => .error e
        | .ok s => .ok (mm ++ s)
      else .error "file has wrong length"

/-- The bytes `io.NewSectionReader(span, p.Offset(), p.Length())` feeds
to the digest. -/
def pieceBytes (span : List Nat) (p : PieceSpec) : List Nat :=
  (span.drop p.off).take p.len

/-- The second loop of `verifyTorrent`: recompute each piece digest over
the span and compare with the expected piece hash. -/
def checkPieces (hashFn : List Nat → List Nat) (span : List Nat) :
    List PieceSpec → Except String Unit
  | [] => .ok ()
  | p :: ps =>
    if hashFn (pieceBytes span p) = p.expected then
      checkPieces hashFn span ps
    else .error "hash mismatch"

/-- `verifyTorrent(info *metainfo.Info, root string) error`. -/
def verifyTorrent (hashFn : List Nat → List Nat)
    (disk : String → Option (List Nat)) (info : Info) (root : String) :
    Except String Unit :=
  match buildSpan disk root info.name info.files with
  | .error e => .error e
  | .ok span => checkPieces hashFn span info.pieces

/-- `verifyTorrent(...) == nil`, as a boolean. -/
def verifyOk (hashFn : List Nat → List Nat)
    (disk : String → Option (List Nat)) (info : Info) (root : String) :
    Bool :=
  match verifyTorrent hashFn disk info root with
  | .ok _ => true
  | .error _ => false

/-- The concatenation of the on-disk contents of the descriptor's files,
in order (unreadable files contribute nothing; relevant only when every
file is readable). -/
def spanOf (disk : String → Option (List Nat)) (root name : String) :
    List FileInfo → List Nat
  | [] => []
  | f :: fs => (disk (fname root name f.path)).getD [] ++ spanOf disk root name fs

/-! ## The `TorrentManager` -/

structure TorrentManager where
  torrents : Hash → Option Torrent
  trackers : List String
  DataDir : String
  TmpDataDir : String

/-- `UpdateMagnet(ih metainfo.Hash, BytesRequested int64)`. -/
def TorrentManager.UpdateMagnet (tm : TorrentManager) (ih : Hash) (r : Int) :
    TorrentManager :=
  match tm.torrents ih with
  | some t =>
    { tm with
      torrents := fun h => if h = ih then some (t.updateBudget r) else tm.torrents h }
  | none => tm

/-- A sequence of `UpdateMagnet` calls, in submission order. -/
def applyUpdateSeq (tm : TorrentManager) : List (Hash × Int) → TorrentManager
  | [] => tm
  | (ih, r) :: rest => applyUpdateSeq (tm.UpdateMagnet ih r) rest

/-- `DropMagnet(uri string) bool`.  `parsed` is the result of
`TorrentSpecFromMagnetURI`: `none` models a parse error, after which the
Go code dereferences the nil `spec` (`spec.InfoHash`) — a runtime fault,
modelled as the `none` result. -/
def TorrentManager.DropMagnet (tm : TorrentManager) (parsed : Option Hash) :
    Option (TorrentManager × Bool × List Effect) :=
  match parsed with
  | none => none
  | some ih =>
    match tm.torrents ih with
    | some _ =>
      some ({ tm with torrents := fun h => if h = ih then none else tm.torrents h },
        true, [.drop])
    | none => some (tm, false, [])

/-- Outcome of `AddMagnet` (the Go function returns nothing; the outcome
records which control path was taken). -/
inductive AddMagnetOutcome where
  | delegated (path : String)
  | skipped
  | added
deriving DecidableEq, Repr

/-- `AddMagnet(uri string)`.  `parsed` models `TorrentSpecFromMagnetURI`
(`none` = parse error: the code logs it but then dereferences the nil
`spec`, a runtime fault, modelled as the `none` result).
`seedTorrentExists` / `tmpTorrentExists` model the two `os.Stat` probes
for an already-persisted descriptor; on either hit the code delegates to
`AddTorrent` and returns.  `_regFailed` models the error value returned
by `tm.client.AddTorrentSpec(spec)`: the source binds it to `err` and
then never reads it, so it has no influence on the result. -/
def TorrentManager.AddMagnet (tm : TorrentManager) (parsed : Option Hash)
    (seedTorrentExists tmpTorrentExists _regFailed : Bool) :
    Option (TorrentManager × AddMagnetOutcome) :=
  match parsed with
  | none => none
  | some ih =>
    let torrentPath := pathJoin (pathJoin tm.TmpDataDir ih) "torrent"
    let seedTorrentPath := pathJoin (pathJoin tm.DataDir ih) "torrent"
    if seedTorrentExists then some (tm, .delegated seedTorrentPath)
    else if tmpTorrentExists then some (tm, .delegated torrentPath)
    else if (tm.torrents ih).isSome then some (tm, .skipped)
    else
      some ({ tm with
        torrents := fun h => if h = ih then some (initTorrent torrentPath) else tm.torrents h },
        .added)

/-- Outcome of `AddTorrent` (which control path the Go function took). -/
inductive AddTorrentOutcome where
  | abortedStat
  | abortedLoad
  | skipped
  | addedExist
  | addedTmp
deriving DecidableEq, Repr

/-- The descriptor loaded by `metainfo.LoadFromFile` +
`TorrentSpecFromMetaInfo`: its infohash and its unmarshalled `Info`. -/
structure MetaInfoModel where
  ih : Hash
  info : Info

/-- `AddTorrent(filePath string)`.  `statOk` models `os.Stat(filePath)`
succeeding; `mi` models `metainfo.LoadFromFile` (`none` = malformed
descriptor); `existDirOk` models `os.Stat(ExistDir)` succeeding.  When a
permanent directory exists and verifies, the spec is registered against
it (`addedExist`); otherwise against the fresh temporary directory
(`addedTmp`).  In both branches the inserted `Torrent` literal is
identical and `Run()` is invoked on it immediately. -/
def TorrentManager.AddTorrent (tm : TorrentManager) (statOk : Bool)
    (mi : Option MetaInfoModel) (existDirOk : Bool)
    (hashFn : List Nat → List Nat) (disk : String → Option (List Nat)) :
    TorrentManager × AddTorrentOutcome × List Effect :=
  if statOk then
    match mi with
    | none => (tm, .abortedLoad, [])
    | some m =>
      if (tm.torrents m.ih).isSome then (tm, .skipped, [])
      else
        let ExistDir := pathJoin tm.DataDir m.ih
        let useExistDir := existDirOk && verifyOk hashFn disk m.info ExistDir
        let torrentPath := pathJoin (pathJoin tm.TmpDataDir m.ih) "torrent"
        let tr := (initTorrent torrentPath).Run
        ({ tm with
           torrents := fun h => if h = m.ih then some tr.1 else tm.torrents h },
         (if useExistDir then .addedExist else .addedTmp), tr.2)
  else (tm, .abortedStat, [])

/-- The per-item body of one `listenTorrentProgress` scheduler tick.
`cc` and `cm` are the values of `t.BytesCompleted()` and
`t.BytesMissing()` reported by the swarm client on this tick. -/
def listenTorrentProgressStep (dataDir : String) (ih : Hash) (t : Torrent)
    (cc cm : Int) : Torrent × List Effect :=
  if t.status = torrentSeeding then
    ({ t with bytesCompleted := cc, bytesMissing := cm }, [])
  else if t.status = torrentPending then
    (t, [.spawnGetTorrent])
  else
    let t1 := { t with bytesCompleted := cc, bytesMissing := cm }
    if t1.bytesMissing = 0 then
      let s := t1.Seed
      (s.1, .symlink (pathJoin defaultTmpFilePath ih) (pathJoin dataDir ih) :: s.2)
    else if t1.bytesLimitation ≤ t1.bytesCompleted then t1.Pause
    else if t1.bytesCompleted < t1.bytesLimitation then t1.Run
    else (t1, [])

/-! ## Concrete instances used by witnesses -/

/-- An empty manager, as produced by `NewTorrentManager` before any add. -/
def tmEmpty : TorrentManager :=
  { torrents := fun _ => none
    trackers := []
    DataDir := "d"
    TmpDataDir := "d/.tmp" }

/-- A manager tracking exactly one freshly inserted torrent under id "a". -/
def tmOne : TorrentManager :=
  { torrents := fun h => if h = "a" then some (initTorrent "p") else none
    trackers := []
    DataDir := "d"
    TmpDataDir := "d/.tmp" }

/-! ## Budget lemmas (`Torrent.updateBudget` / `UpdateMagnet`) -/

lemma updateBudget_bytesLimitation (t : Torrent) (r : Int) :
    (t.updateBudget r).bytesLimitation =
      (if t.bytesLimitation < r then applyExpansionFactor r else t.bytesLimitation) := by
  simp only [Torrent.updateBudget]
  by_cases h : t.bytesLimitation < r <;> simp [h]

lemma le_applyExpansionFactor (r : Int) (h : 0 ≤ r) : r ≤ applyExpansionFactor r := by
  unfold applyExpansionFactor
  have h5 : (0 : Int) ≤ 5 * r := by omega
  rw [Int.tdiv_eq_ediv h5 (by norm_num)]
  omega

lemma updateBudget_mono (t : Torrent) (r : Int) (h : 0 ≤ t.bytesLimitation) :
    t.bytesLimitation ≤ (t.updateBudget r).bytesLimitation := by
  rw [updateBudget_bytesLimitation]
  split
  · next hlt => exact le_trans (le_of_lt hlt) (le_applyExpansionFactor r (by omega))
  · exact le_refl _

lemma updateBudget_nonneg (t : Torrent) (r : Int) (h : 0 ≤ t.bytesLimitation) :
    0 ≤ (t.updateBudget r).bytesLimitation :=
  le_trans h (updateBudget_mono t r h)

lemma UpdateMagnet_tracked (tm : TorrentManager) (ih ih0 : Hash) (r : Int)
    (t : Torrent) (h : tm.torrents ih = some t) :
    ∃ t', (tm.UpdateMagnet ih0 r).torrents ih = some t'
      ∧ (t' = t ∨ t' = t.updateBudget r) := by
  unfold TorrentManager.UpdateMagnet
  cases h0 : tm.torrents ih0 with
  | none => exact ⟨t, h, Or.inl rfl⟩
  | some u =>
    by_cases hih : ih = ih0
    · subst hih
      rw [h] at h0
      cases h0
      exact ⟨t.updateBudget r, by simp, Or.inr rfl⟩
    · exact ⟨t, by simp [hih, h], Or.inl rfl⟩

lemma applyUpdateSeq_mono (seq : List (Hash × Int)) (tm : TorrentManager)
    (ih : Hash) (t : Torrent) (h : tm.torrents ih = some t)
    (hL : 0 ≤ t.bytesLimitation) :
    ∃ t', (applyUpdateSeq tm seq).torrents ih = some t'
      ∧ 0 ≤ t'.bytesLimitation
      ∧ t.bytesLimitation ≤ t'.bytesLimitation := by
  induction seq generalizing tm t with
  | nil => exact ⟨t, h, hL, le_refl _⟩
  | cons p rest ihrec =>
    obtain ⟨ih0, r⟩ := p
    obtain ⟨t1, ht1, hcase⟩ := UpdateMagnet_tracked tm ih ih0 r t h
    have h1 : 0 ≤ t1.bytesLimitation ∧ t.bytesLimitation ≤ t1.bytesLimitation := by
      rcases hcase with hsame | hupd
      · subst hsame; exact ⟨hL, le_refl _⟩
      · subst hupd
        exact ⟨updateBudget_nonneg t r hL, updateBudget_mono t r hL⟩
    obtain ⟨t', ht', hL', hmono⟩ := ihrec (tm.UpdateMagnet ih0 r) t1 ht1 h1.1
    exact ⟨t', ht', hL', le_trans h1.2 hmono⟩

/-- C1: for every tracked Torrent and every sequence of `UpdateMagnet`
calls, `bytesLimitation` never decreases; after `UpdateMagnet(ih, r)`
the limitation equals `int64(r * 1.25)` when `r` exceeded the previous
limitation, and is unchanged otherwise (the torrent's limitation is
nonnegative by construction: every insertion sets it to 655360 and the
update rule preserves nonnegativity). -/
theorem C1_budget_monotone (tm : TorrentManager) (seq : List (Hash × Int))
    (ih : Hash) (t : Torrent) (r : Int)
    (htrack : tm.torrents ih = some t) (hL : 0 ≤ t.bytesLimitation) :
    (∃ t', (applyUpdateSeq tm seq).torrents ih = some t'
        ∧ t.bytesLimitation ≤ t'.bytesLimitation)
    ∧ (t.updateBudget r).bytesRequested = r
    ∧ (t.updateBudget r).bytesLimitation =
        (if t.bytesLimitation < r then applyExpansionFactor r else t.bytesLimitation) := by
  refine ⟨?_, ?_, updateBudget_bytesLimitation t r⟩
  · obtain ⟨t', ht', _, hmono⟩ := applyUpdateSeq_mono seq tm ih t htrack hL
    exact ⟨t', ht', hmono⟩
  · simp only [Torrent.updateBudget]
    by_cases h : t.bytesLimitation < r <;> simp [h]

theorem C1_budget_monotone_witness :
    ∃ t', (applyUpdateSeq tmOne [("a", 1024000)]).torrents "a" = some t'
      ∧ (initTorrent "p").bytesLimitation ≤ t'.bytesLimitation :=
  (C1_budget_monotone tmOne [("a", 1024000)] "a" (initTorrent "p") 102400
    (by decide) (by decide)).1

/-- C3 counterexample: a freshly created Torrent starts with
`bytesLimitation = int64(512 KiB * 1.25) = 655360`, not 512 KiB, so after
`UpdateMagnet` with 100 KiB the limitation is not 512 KiB (524288). -/
theorem C3_counterexample :
    ((initTorrent "p").updateBudget 102400).bytesLimitation ≠ 512 * 1024 := by
  decide

/-- C3 (amended): a freshly created Torrent has
`bytesLimitation = 655360` (512 KiB * 1.25); `UpdateMagnet` with
100 KiB (102400) leaves it at 655360, and `UpdateMagnet` with 1000 KiB
(1024000) then raises it to exactly 1280000 bytes. -/
theorem C3_budget_scenario :
    (initTorrent "p").bytesLimitation = 655360
    ∧ ((initTorrent "p").updateBudget 102400).bytesLimitation = 655360
    ∧ (((initTorrent "p").updateBudget 102400).updateBudget 1024000).bytesLimitation
        = 1280000 := by
  refine ⟨by decide, by decide, by decide⟩

/-- C2 (code-bug evidence): in `AddMagnet`, the error returned by
`tm.client.AddTorrentSpec(spec)` is bound and never read; even when
registration fails (`_regFailed = true`) the add is not aborted, no
error can reach the caller (the function returns nothing), and a tracked
entry is still inserted into the map. -/
theorem C2_regFailure_still_inserts :
    ∃ pr, tmEmpty.AddMagnet (some "a") false false true = some pr
      ∧ pr.2 = AddMagnetOutcome.added
      ∧ pr.1.torrents "a" = some (initTorrent "d/.tmp/a/torrent") := by
  refine ⟨_, rfl, rfl, by decide⟩

/-- C9 (code-bug evidence): when the magnet URI fails to parse,
`AddMagnet` and `DropMagnet` log the error but fall through and
dereference the nil `spec` pointer (`spec.InfoHash`) — a runtime fault,
modelled as the `none` result. -/
theorem C9_parse_failure_faults :
    tmEmpty.AddMagnet none false false false = none
    ∧ tmEmpty.DropMagnet none = none :=
  ⟨rfl, rfl⟩

/-- C7: an add whose identifier names an unreadable (`os.Stat` fails) or
malformed (`metainfo.LoadFromFile` fails) descriptor file returns
normally with an aborted outcome, issues no effects, and leaves the
manager — in particular its map — unchanged. -/
theorem C7_bad_descriptor_aborts (tm : TorrentManager)
    (mi : Option MetaInfoModel) (e : Bool)
    (hashFn : List Nat → List Nat) (disk : String → Option (List Nat)) :
    tm.AddTorrent false mi e hashFn disk = (tm, .abortedStat, [])
    ∧ tm.AddTorrent true none e hashFn disk = (tm, .abortedLoad, []) := by
  constructor
  · simp [TorrentManager.AddTorrent]
  · simp [TorrentManager.AddTorrent]

/-- C8: `DropMagnet` on a tracked id drops the swarm handle, deletes the
map entry and returns `true`; calling it again on the same id returns
`false` (not a fault), issues no effects, and leaves the map unchanged
(the same manager value is returned); other ids are untouched. -/
theorem C8_drop_then_not_found (tm : TorrentManager) (ih : Hash) (t : Torrent)
    (h : tm.torrents ih = some t) :
    ∃ tm', tm.DropMagnet (some ih) = some (tm', true, [Effect.drop])
      ∧ tm'.torrents ih = none
      ∧ (∀ h', h' ≠ ih → tm'.torrents h' = tm.torrents h')
      ∧ tm'.DropMagnet (some ih) = some (tm', false, []) := by
  refine ⟨{ tm with torrents := fun h' => if h' = ih then none else tm.torrents h' },
    ?_, by simp, ?_, ?_⟩
  · simp [TorrentManager.DropMagnet, h]
  · intro h' hne
    simp [hne]
  · simp [TorrentManager.DropMagnet]

theorem C8_drop_then_not_found_witness :
    ∃ tm', tmOne.DropMagnet (some "a") = some (tm', true, [Effect.drop])
      ∧ tm'.torrents "a" = none
      ∧ (∀ h', h' ≠ "a" → tm'.torrents h' = tmOne.torrents h')
      ∧ tm'.DropMagnet (some "a") = some (tm', false, []) :=
  C8_drop_then_not_found tmOne "a" (initTorrent "p") (by decide)

/-- C10: `UpdateMagnet` on an untracked id returns the manager unchanged
(no entry created, no field of any torrent changed, no error — the Go
function has no error path at all); on a tracked id it replaces only
that torrent with `updateBudget`, which leaves `bytesCompleted`,
`bytesMissing`, `status` and `torrentPath` intact, and every other
tracked torrent and every other manager field is unchanged. -/
theorem C10_update_frame (tm : TorrentManager) (ih : Hash) (r : Int) :
    (tm.torrents ih = none → tm.UpdateMagnet ih r = tm)
    ∧ (∀ t, tm.torrents ih = some t →
        (tm.UpdateMagnet ih r).torrents ih = some (t.updateBudget r)
        ∧ (t.updateBudget r).bytesCompleted = t.bytesCompleted
        ∧ (t.updateBudget r).bytesMissing = t.bytesMissing
        ∧ (t.updateBudget r).status = t.status
        ∧ (t.updateBudget r).torrentPath = t.torrentPath
        ∧ (∀ h', h' ≠ ih → (tm.UpdateMagnet ih r).torrents h' = tm.torrents h')
        ∧ (tm.UpdateMagnet ih r).trackers = tm.trackers
        ∧ (tm.UpdateMagnet ih r).DataDir = tm.DataDir
        ∧ (tm.UpdateMagnet ih r).TmpDataDir = tm.TmpDataDir) := by
  constructor
  · intro h
    simp [TorrentManager.UpdateMagnet, h]
  · intro t h
    have hfields : (t.updateBudget r).bytesCompleted = t.bytesCompleted
        ∧ (t.updateBudget r).bytesMissing = t.bytesMissing
        ∧ (t.updateBudget r).status = t.status
        ∧ (t.updateBudget r).torrentPath = t.torrentPath := by
      simp only [Torrent.updateBudget]
      by_cases hc : t.bytesLimitation < r <;> simp [hc]
    refine ⟨by simp [TorrentManager.UpdateMagnet, h], hfields.1, hfields.2.1,
      hfields.2.2.1, hfields.2.2.2, ?_, ?_, ?_, ?_⟩
    · intro h' hne
      simp [TorrentManager.UpdateMagnet, h, hne]
    · simp [TorrentManager.UpdateMagnet, h]
    · simp [TorrentManager.UpdateMagnet, h]
    · simp [TorrentManager.UpdateMagnet, h]

theorem C10_update_frame_witness :
    (tmOne.UpdateMagnet "b" 1024000 = tmOne)
    ∧ (tmOne.UpdateMagnet "a" 1024000).torrents "a"
        = some ((initTorrent "p").updateBudget 1024000)
    ∧ ((initTorrent "p").updateBudget 1024000).status = (initTorrent "p").status
    ∧ (tmOne.UpdateMagnet "a" 1024000).torrents "b" = tmOne.torrents "b" := by
  have h1 := (C10_update_frame tmOne "b" 1024000).1 (by decide)
  have h2 := (C10_update_frame tmOne "a" 1024000).2 (initTorrent "p") (by decide)
  exact ⟨h1, h2.1, h2.2.2.2.1, h2.2.2.2.2.2.1 "b" (by decide)⟩

/-! ## State machine and scheduler -/

/-- C4: a freshly inserted item is pending; observing the metadata-ready
signal on a pending item (persisting the descriptor) makes it paused;
`Run` on a paused item with remaining budget makes it running; a
scheduler tick on a non-pending, non-seeding item whose missing count is
zero makes it seeding; and a tick on a seeding item leaves it seeding. -/
theorem C4_state_machine (p dataDir ih : String) (t : Torrent) (cc cm : Int) :
    (initTorrent p).status = torrentPending
    ∧ (t.status = torrentPending → (t.GetTorrent).1.status = torrentPaused)
    ∧ (t.status = torrentPaused → t.bytesCompleted < t.bytesLimitation →
        (t.Run).1.status = torrentRunning)
    ∧ (t.status ≠ torrentPending → t.status ≠ torrentSeeding → cm = 0 →
        (listenTorrentProgressStep dataDir ih t cc cm).1.status = torrentSeeding)
    ∧ (t.status = torrentSeeding →
        (listenTorrentProgressStep dataDir ih t cc cm).1.status = torrentSeeding) := by
  refine ⟨rfl, ?_, ?_, ?_, ?_⟩
  · intro h
    simp [Torrent.GetTorrent, h]
  · intro h _
    have : t.status ≠ torrentRunning := by
      rw [h]; decide
    simp [Torrent.Run, this]
  · intro h1 h2 hcm
    simp [listenTorrentProgressStep, h1, h2, hcm, Torrent.Seed]
  · intro h
    simp [listenTorrentProgressStep, h]

theorem C4_state_machine_witness :
    (initTorrent "p").status = torrentPending
    ∧ ((initTorrent "p").GetTorrent).1.status = torrentPaused
    ∧ (((initTorrent "p").GetTorrent).1.Run).1.status = torrentRunning
    ∧ (listenTorrentProgressStep "d" "a"
        (((initTorrent "p").GetTorrent).1.Run).1 7 0).1.status = torrentSeeding
    ∧ (listenTorrentProgressStep "d" "a"
        (listenTorrentProgressStep "d" "a"
          (((initTorrent "p").GetTorrent).1.Run).1 7 0).1 7 0).1.status
        = torrentSeeding := by
  have h0 := C4_state_machine "p" "d" "a" (initTorrent "p") 7 0
  have h1 := h0.2.1 (by decide)
  have h2 := (C4_state_machine "p" "d" "a" ((initTorrent "p").GetTorrent).1 7 0).2.2.1
    h1 (by decide)
  have h3 := (C4_state_machine "p" "d" "a" (((initTorrent "p").GetTorrent).1.Run).1
    7 0).2.2.2.1 (by rw [h2]; decide) (by rw [h2]; decide) rfl
  have h4 := (C4_state_machine "p" "d" "a"
    (listenTorrentProgressStep "d" "a" (((initTorrent "p").GetTorrent).1.Run).1 7 0).1
    7 0).2.2.2.2 h3
  exact ⟨h0.1, h1, h2, h3, h4⟩

/-- C5: on a scheduler tick, a non-pending, non-seeding item first has
its counters refreshed from the swarm client; then exactly one branch
applies, in order: if nothing is missing, a link is created at the
permanent-storage path pointing to the temporary-storage path for the
content id and the item enters seeding, issuing verify and download-all;
otherwise if the completed bytes reach the limitation the item is paused
(dropping the handle unless already paused); otherwise the item is run
(a no-op when already running). -/
theorem C5_scheduler_step (dataDir ih : String) (t : Torrent) (cc cm : Int)
    (h1 : t.status ≠ torrentPending) (h2 : t.status ≠ torrentSeeding) :
    (cm = 0 →
      listenTorrentProgressStep dataDir ih t cc cm =
        ({ t with bytesCompleted := cc, bytesMissing := cm, status := torrentSeeding },
         [Effect.symlink (pathJoin defaultTmpFilePath ih) (pathJoin dataDir ih),
          Effect.verifyData, Effect.downloadAll]))
    ∧ (cm ≠ 0 → t.bytesLimitation ≤ cc →
      listenTorrentProgressStep dataDir ih t cc cm =
        ({ t with bytesCompleted := cc, bytesMissing := cm, status := torrentPaused },
         if t.status = torrentPaused then [] else [Effect.drop]))
    ∧ (cm ≠ 0 → cc < t.bytesLimitation →
      listenTorrentProgressStep dataDir ih t cc cm =
        ({ t with bytesCompleted := cc, bytesMissing := cm, status := torrentRunning },
         if t.status = torrentRunning then [] else [Effect.downloadAll])) := by
  obtain ⟨br, bl, bc, bm, st, tp⟩ := t
  simp only [listenTorrentProgressStep, Torrent.Seed, Torrent.Pause, Torrent.Run,
    torrentPending, torrentPaused, torrentRunning, torrentSeeding] at *
  refine ⟨?_, ?_, ?_⟩
  · intro hcm
    simp [h1, h2, hcm]
  · intro hcm hge
    have hlt : ¬ cc < bl := by omega
    by_cases hp : st = 1 <;> simp [h1, h2, hcm, hge, hlt, hp]
  · intro hcm hlt
    have hge : ¬ bl ≤ cc := by omega
    by_cases hr : st = 2 <;> simp [h1, h2, hcm, hge, hlt, hr]

theorem C5_scheduler_step_witness :
    (listenTorrentProgressStep "d" "a" (((initTorrent "p").GetTorrent).1.Run).1 7 0 =
      ({ (((initTorrent "p").GetTorrent).1.Run).1 with
          bytesCompleted := 7, bytesMissing := 0, status := torrentSeeding },
       [Effect.symlink ".tmp/a" "d/a", Effect.verifyData, Effect.downloadAll]))
    ∧ (listenTorrentProgressStep "d" "a" (((initTorrent "p").GetTorrent).1.Run).1
        655360 5 =
      ({ (((initTorrent "p").GetTorrent).1.Run).1 with
          bytesCompleted := 655360, bytesMissing := 5, status := torrentPaused },
       [Effect.drop]))
    ∧ (listenTorrentProgressStep "d" "a" (((initTorrent "p").GetTorrent).1.Run).1
        7 5 =
      ({ (((initTorrent "p").GetTorrent).1.Run).1 with
          bytesCompleted := 7, bytesMissing := 5, status := torrentRunning },
       [])) := by
  have hs : (((initTorrent "p").GetTorrent).1.Run).1.status = torrentRunning := by
    decide
  have hp : (((initTorrent "p").GetTorrent).1.Run).1.status ≠ torrentPending := by
    rw [hs]; decide
  have hsd : (((initTorrent "p").GetTorrent).1.Run).1.status ≠ torrentSeeding := by
    rw [hs]; decide
  have h0 := C5_scheduler_step "d" "a" (((initTorrent "p").GetTorrent).1.Run).1 7 0
    hp hsd
  have hA := h0.1 rfl
  have hB := (C5_scheduler_step "d" "a" (((initTorrent "p").GetTorrent).1.Run).1
    655360 5 hp hsd).2.1 (by decide) (by decide)
  have hC := (C5_scheduler_step "d" "a" (((initTorrent "p").GetTorrent).1.Run).1
    7 5 hp hsd).2.2 (by decide) (by decide)
  rw [hs] at hB hC
  refine ⟨?_, ?_, ?_⟩
  · simpa [pathJoin, defaultTmpFilePath] using hA
  · simpa using hB
  · simpa using hC

/-! ## Verification lemmas (`verifyTorrent`) -/

/-- Exact-length success: when every declared file is readable with
exactly its declared length, the first loop of `verifyTorrent` succeeds
and produces the concatenated span. -/
lemma buildSpan_ok_of_lengths (disk : String → Option (List Nat))
    (root name : String) (fs : List FileInfo)
    (h : ∀ f ∈ fs, ∃ mm, disk (fname root name f.path) = some mm
        ∧ (mm.length : Int) = f.length) :
    buildSpan disk root name fs = .ok (spanOf disk root name fs) := by
  induction fs with
  | nil => rfl
  | cons f fs ihrec =>
    obtain ⟨mm, hmm, hlen⟩ := h f (by simp)
    have hrest := ihrec (fun g hg => h g (by simp [hg]))
    simp [buildSpan, spanOf, hmm, hlen, hrest]

/-- Conversely, if the first loop of `verifyTorrent` succeeds then every
declared file is readable with exactly its declared length. -/
lemma lengths_of_buildSpan_ok (disk : String → Option (List Nat))
    (root name : String) (fs : List FileInfo) (s : List Nat)
    (h : buildSpan disk root name fs = .ok s) :
    ∀ f ∈ fs, ∃ mm, disk (fname root name f.path) = some mm
      ∧ (mm.length : Int) = f.length := by
  induction fs generalizing s with
  | nil => simp
  | cons f fs ihrec =>
    intro g hg
    cases hd : disk (fname root name f.path) with
    | none => simp [buildSpan, hd] at h
    | some mm =>
      by_cases hlen : (mm.length : Int) = f.length
      · cases hb : buildSpan disk root name fs with
        | error e => simp [buildSpan, hd, hlen, hb] at h
        | ok s' =>
          rcases List.mem_cons.mp hg with hgf | hgs
          · subst hgf
            exact ⟨mm, hd, hlen⟩
          · exact ihrec s' hb g hgs
      · simp [buildSpan, hd, hlen] at h

/-- The second loop of `verifyTorrent` succeeds iff every piece's
recomputed digest equals the descriptor's expected piece hash. -/
lemma checkPieces_ok_iff (hashFn : List Nat → List Nat) (span : List Nat)
    (ps : List PieceSpec) :
    checkPieces hashFn span ps = .ok () ↔
      ∀ p ∈ ps, hashFn (pieceBytes span p) = p.expected := by
  induction ps with
  | nil => simp [checkPieces]
  | cons p ps ihrec =>
    by_cases hp : hashFn (pieceBytes span p) = p.expected
    · simp [checkPieces, hp, ihrec]
    · simp [checkPieces, hp]

/-- `verifyTorrent` succeeds iff every file has exactly its declared
length on disk and every piece's recomputed digest matches. -/
lemma verifyTorrent_ok_iff (hashFn : List Nat → List Nat)
    (disk : String → Option (List Nat)) (info : Info) (root : String) :
    verifyTorrent hashFn disk info root = .ok () ↔
      ((∀ f ∈ info.files, ∃ mm, disk (fname root info.name f.path) = some mm
          ∧ (mm.length : Int) = f.length)
       ∧ (∀ p ∈ info.pieces,
          hashFn (pieceBytes (spanOf disk root info.name info.files) p)
            = p.expected)) := by
  constructor
  · intro h
    cases hb : buildSpan disk root info.name info.files with
    | error e => simp [verifyTorrent, hb] at h
    | ok s =>
      have hl := lengths_of_buildSpan_ok disk root info.name info.files s hb
      have hs : s = spanOf disk root info.name info.files := by
        have h2 := buildSpan_ok_of_lengths disk root info.name info.files hl
        rw [hb] at h2
        exact Except.ok.inj h2
      subst hs
      simp only [verifyTorrent, hb] at h
      exact ⟨hl, (checkPieces_ok_iff hashFn _ info.pieces).mp h⟩
  · rintro ⟨hl, hp⟩
    have hb := buildSpan_ok_of_lengths disk root info.name info.files hl
    simp only [verifyTorrent, hb]
    exact (checkPieces_ok_iff hashFn _ info.pieces).mpr hp

/-- C6: `verifyTorrent` succeeds iff every file listed in the descriptor
has exactly its declared length on disk and every piece's recomputed
digest equals the expected piece hash; and when verification of an
existing permanent directory fails during a descriptor-file add, the add
registers against the fresh temporary directory (`addedTmp`) instead of
the permanent one. -/
theorem C6_verify_iff_and_fallback (hashFn : List Nat → List Nat)
    (disk : String → Option (List Nat)) (info : Info) (root : String)
    (tm : TorrentManager) (m : MetaInfoModel)
    (hAbsent : tm.torrents m.ih = none)
    (hFail : verifyOk hashFn disk m.info (pathJoin tm.DataDir m.ih) = false) :
    (verifyTorrent hashFn disk info root = .ok () ↔
      ((∀ f ∈ info.files, ∃ mm, disk (fname root info.name f.path) = some mm
          ∧ (mm.length : Int) = f.length)
       ∧ (∀ p ∈ info.pieces,
          hashFn (pieceBytes (spanOf disk root info.name info.files) p)
            = p.expected)))
    ∧ (tm.AddTorrent true (some m) true hashFn disk).2.1
        = AddTorrentOutcome.addedTmp := by
  refine ⟨verifyTorrent_ok_iff hashFn disk info root, ?_⟩
  simp [TorrentManager.AddTorrent, hAbsent, hFail]

/-- A malformed permanent directory for the C6 witness: the descriptor
declares one file of length 1, but the on-disk file is empty, so
verification fails on the length check. -/
def infoW : Info :=
  { name := "n"
    files := [{ path := ["f"], length := 1 }]
    pieces := [] }

def diskW : String → Option (List Nat) :=
  fun s => if s = "d/a/n/f" then some [] else none

def miW : MetaInfoModel := { ih := "a", info := infoW }

theorem C6_verify_iff_and_fallback_witness :
    (tmEmpty.AddTorrent true (some miW) true (fun _ => []) diskW).2.1
      = AddTorrentOutcome.addedTmp :=
  (C6_verify_iff_and_fallback (fun _ => []) diskW infoW "d/a" tmEmpty miW
    (by decide) (by decide)).2

